import Mathlib

/-!
Verification of `pydantic-argparse` (a declarative typed CLI parser built on
pydantic models) against its natural-language specification.

The Python source is shallowly embedded: Python runtime values flowing through
the parse/unflatten pipeline become the inductive `PyValue` (with `pnone`
standing for Python's `None`), dictionaries become ordered association lists
(first binding wins on lookup, as in the flat argument mapping whose keys are
unique), exceptions become `Except`/`Option`, and Python classes become a small
inductive of named classes with single inheritance.  Each section names the
source file and function it embeds.
-/

/-- Python runtime values as they occur in the flat argument mapping and the
rebuilt nested tree: `None`, strings, booleans, integers, dictionaries
(ordered association lists) and lists. -/
inductive PyValue where
  | pnone : PyValue
  | pstr : String → PyValue
  | pbool : Bool → PyValue
  | pint : Int → PyValue
  | pdict : List (String × PyValue) → PyValue
  | plist : List PyValue → PyValue
deriving Repr

namespace PyValue

/-- Python `isinstance(value, str)`. -/
def isStr : PyValue → Bool
  | pstr _ => true
  | _ => false

/-- Python `isinstance(value, (Container, Mapping))`: strings, dicts and lists
are `Container`s; `None`, booleans and integers are not. -/
def isContainer : PyValue → Bool
  | pstr _ => true
  | pdict _ => true
  | plist _ => true
  | _ => false

/-- Python `len(value)` for the container values. -/
def pyLen : PyValue → Nat
  | pstr s => s.length
  | pdict m => m.length
  | plist l => l.length
  | _ => 0

end PyValue

/-! ## Coercion layer: `src/pydantic_argparse/utils/pydantic.py`, `as_validator`

The inner `__validator` closure receives the raw value.  A caster is a Python
callable that either returns a value or raises; it is embedded as
`String → Except String PyValue` (`Except.error` = the caster raised). -/

/-- Embedding of the `__validator` closure built by `as_validator`:

```python
def __validator(cls, value):
    if not isinstance(value, str):
        return value
    if not value:
        return None
    try:
        return caster(value)
    except Exception:
        return value
```
-/
def asValidatorBody (caster : String → Except String PyValue) (value : PyValue) :
    PyValue :=
  if ¬ value.isStr then value
  else
    match value with
    | PyValue.pstr s =>
        if s = "" then PyValue.pnone
        else
          match caster s with
          | Except.ok v => v
          | Except.error _ => PyValue.pstr s
    | v => v

/-! ## Type checks: `src/pydantic_argparse/utils/types.py`, `is_field_a`

Python objects (type annotations and candidate targets) are abstracted into a
`TypeWorld`: a carrier with a decidable `is type` predicate, an equality used
by `in` membership, and partial `isinstance`/`issubclass` checks that may raise
`TypeError` (`Option.none`) but are guaranteed total on genuine types. -/

/-- An abstract universe of Python objects for `is_field_a`: `isType o` states
`isinstance(o, type)`; `pyEq` is the `==` used by `in`; `isinst o ts` and
`issub o ts` model `isinstance(o, tuple(ts))` / `issubclass(o, tuple(ts))`,
with `none` standing for a raised `TypeError`; the two `_total` fields record
that CPython never raises when every argument is a genuine `type`. -/
structure TypeWorld where
  Obj : Type
  isType : Obj → Bool
  pyEq : Obj → Obj → Bool
  isinst : Obj → List Obj → Option Bool
  issub : Obj → List Obj → Option Bool
  isinst_total : ∀ o ts, isType o = true → (∀ t ∈ ts, isType t = true) →
    (isinst o ts).isSome
  issub_total : ∀ o ts, isType o = true → (∀ t ∈ ts, isType t = true) →
    (issub o ts).isSome

namespace TypeWorld

variable (W : TypeWorld)

/-- Python `field_type in types` (membership via `==`). -/
def pyMem (o : Obj W) (ts : List (Obj W)) : Bool :=
  ts.any (W.pyEq o)

/-- `field_type = get_origin(field.info.annotation) or field.info.annotation`
(`get_origin` returns a truthy type or `None`). -/
def fieldTypeOf (getOrigin : Obj W → Option (Obj W)) (ann : Obj W) : Obj W :=
  (getOrigin ann).getD ann

/-- Embedding of the body of `is_field_a` after the tuple normalisation:

```python
is_valid = all(isinstance(t, type) for t in (*types, field_type))
return (field_type in types
        or (is_valid and isinstance(field_type, types))
        or (is_valid and issubclass(field_type, types)))
```

Short-circuit evaluation of `or`/`and` is made explicit; the result is `none`
exactly when an unguarded `isinstance`/`issubclass` call raises. -/
def is_field_a (field_type : Obj W) (types : List (Obj W)) : Option Bool :=
  let is_valid := (types ++ [field_type]).all W.isType
  if pyMem W field_type types then some true
  else if is_valid then
    match W.isinst field_type types with
    | none => none
    | some true => some true
    | some false =>
        match W.issub field_type types with
        | none => none
        | some b => some b
  else some false

end TypeWorld

/-! ## Parse/unflatten engine: `src/pydantic_argparse/utils/nesting.py`

`_NestedArgumentParser` walks the pydantic model, rebuilds the nested
dictionary from the flat argument mapping (`self.args`, the dict made from the
argparse namespace), prunes null/empty leaves with `boltons.iterutils.remap`,
and, when a subcommand field was seen, keeps only the selected variant.

The model's field tree is embedded as `FieldSpec` (a scalar field, or a nested
pydantic-model field with its subcommand flag and its own fields, i.e. the
information `field.is_a(BaseModel)`, `field.is_subcommand()` and
`field.model_type` expose).  The Python `parent` tuple starts as `None` and is
only ever extended to non-empty tuples, so `parent : List String` with `[]`
standing for `None` is a faithful encoding. -/

/-- One field of a pydantic model: a scalar leaf, or a nested model field
(name, `is_subcommand()` flag, the nested model's own fields). -/
inductive FieldSpec where
  | scalar : String → FieldSpec
  | nested : String → Bool → List FieldSpec → FieldSpec

/-- Python `value is None`. -/
def PyValue.isNone : PyValue → Bool
  | PyValue.pnone => true
  | _ => false

/-- Python `d.get(k)` on a dict embedded as an ordered association list. -/
def dget (m : List (String × PyValue)) (k : String) : Option PyValue :=
  (m.find? (fun kv => kv.1 = k)).map (fun kv => kv.2)

/-- `boltons.iterutils.get_path(root, path)` restricted to string keys:
descend through nested dicts; a missing key or a non-dict intermediate raises
`PathAccessError`, embedded as `none` (the caller supplies the default). -/
def getPath : PyValue → List String → Option PyValue
  | v, [] => some v
  | PyValue.pdict m, k :: ks =>
      match dget m k with
      | some v => getPath v ks
      | none => none
  | _, _ :: _ => none

/-- The scalar branch of `_NestedArgumentParser._get_nested_model_fields`:

```python
value = self.args.get(key, None)
if parent is not None:
    full_path = (*parent, key)
    value = get_path(self.args, full_path, value)
    if value is None:
        short_path = (parent[0], key)
        value = get_path(self.args, short_path, value)
```
-/
def scalarLookup (args : List (String × PyValue)) (parent : List String)
    (key : String) : PyValue :=
  let value := (dget args key).getD PyValue.pnone
  match parent with
  | [] => value
  | p0 :: _ =>
      let afterFull := (getPath (PyValue.pdict args) (parent ++ [key])).getD value
      if afterFull.isNone then
        (getPath (PyValue.pdict args) [p0, key]).getD afterFull
      else afterFull

/-- Embedding of `_NestedArgumentParser._get_nested_model_fields`: rebuilds
the nested dictionary for the given fields, and returns the `self.subcommand`
flag (set when any traversed nested field is a subcommand).  Fields are
processed in declaration order. -/
def getNestedModelFields (args : List (String × PyValue)) :
    List FieldSpec → List String → List (String × PyValue) × Bool
  | [], _ => ([], false)
  | FieldSpec.scalar key :: rest, parent =>
      let tail := getNestedModelFields args rest parent
      ((key, scalarLookup args parent key) :: tail.1, tail.2)
  | FieldSpec.nested key isSub subfields :: rest, parent =>
      let sub := getNestedModelFields args subfields (parent ++ [key])
      let tail := getNestedModelFields args rest parent
      ((key, PyValue.pdict sub.1) :: tail.1, isSub || sub.2 || tail.2)

/-- The `visit` callback of `_remove_null_leaves`, applied to an
already-remapped value:

```python
should_keep = True
if value is not None:
    if isinstance(value, (Container, Mapping)):
        should_keep = len(value) > 0
else:
    should_keep = False
```
-/
def shouldKeep (v : PyValue) : Bool :=
  if ¬ v.isNone then
    if v.isContainer then decide (v.pyLen > 0) else true
  else false

mutual

/-- `boltons.iterutils.remap(schema, visit=_remove)` on a value: `remap`
rebuilds containers bottom-up and calls `visit` post-order on every item
below the root, dropping an item from its parent when `visit` returns
`False`; strings are leaves. -/
def pruneValue : PyValue → PyValue
  | PyValue.pdict m => PyValue.pdict (pruneEntries m)
  | PyValue.plist l => PyValue.plist (pruneList l)
  | v => v

/-- `remap` on a dict's items: each value is remapped first, then kept only
when the `visit` callback accepts the remapped value. -/
def pruneEntries : List (String × PyValue) → List (String × PyValue)
  | [] => []
  | (k, v) :: rest =>
      let v2 := pruneValue v
      if shouldKeep v2 then (k, v2) :: pruneEntries rest else pruneEntries rest

/-- `remap` on a list's items. -/
def pruneList : List PyValue → List PyValue
  | [] => []
  | v :: rest =>
      let v2 := pruneValue v
      if shouldKeep v2 then v2 :: pruneList rest else pruneList rest

end

/-- Embedding of `_NestedArgumentParser._remove_null_leaves` (the root dict is
rebuilt but never itself dropped, since `remap` does not visit the root). -/
def removeNullLeaves (schema : List (String × PyValue)) :
    List (String × PyValue) :=
  pruneEntries schema

/-- Embedding of `_NestedArgumentParser._unset_subcommands`:
`{key: value for key, value in schema.items() if key == command}`. -/
def unsetSubcommands (schema : List (String × PyValue)) (command : String) :
    List (String × PyValue) :=
  schema.filter (fun kv => kv.1 = command)

/-- Embedding of `_NestedArgumentParser.__init__` from `self.args` onward:
rebuild the schema, prune null leaves, and if a subcommand field was seen keep
only the variant named by the first key of `self.args`
(`command = list(self.args.keys())[0]`, an `IndexError` — embedded as `none`
— when the argument mapping is empty). -/
def nestedParserInit (model : List FieldSpec)
    (args : List (String × PyValue)) : Option (List (String × PyValue)) :=
  let built := getNestedModelFields args model []
  let schema1 := removeNullLeaves built.1
  if built.2 then
    match args with
    | [] => none
    | (command, _) :: _ => some (unsetSubcommands schema1 command)
  else some schema1

/-! ## Argument names: `src/pydantic_argparse/utils/arguments.py`, `name`

Python strings are embedded as `List Char` here so that `str.replace` can be
given its real leftmost, non-overlapping semantics and then compared with the
specification's per-character description. -/

/-- Python `s.replace(pat, rep)` for a non-empty pattern on `List Char`
strings: scan left to right, replacing each leftmost, non-overlapping
occurrence of `pat` by `rep` (an empty pattern never occurs in the source,
which only calls `.replace('_', '-')`). -/
def strReplace (pat rep : List Char) : List Char → List Char
  | [] => []
  | c :: rest =>
      if h : pat ≠ [] ∧ pat.isPrefixOf (c :: rest) = true then
        rep ++ strReplace pat rep ((c :: rest).drop pat.length)
      else
        c :: strReplace pat rep rest
termination_by s => s.length
decreasing_by
  · obtain ⟨hne, -⟩ := h
    cases pat with
    | nil => exact absurd rfl hne
    | cons p ps => simp [List.length_drop]; omega
  · simp

/-- Python truthiness fallback `title or name` for an optional string field
(`None` and the empty string both fall back). -/
def pyOrStr (a : Option (List Char)) (b : List Char) : List Char :=
  match a with
  | some s => if s = [] then b else s
  | none => b

/-- Embedding of `arguments.name`:

```python
prefix = "--no-" if invert else "--"
name = field.info.title or field.name
return f"{prefix}{name.replace('_', '-')}"
```
-/
def argumentName (title : Option (List Char)) (fieldName : List Char)
    (invert : Bool) : List Char :=
  let pref := if invert then "--no-".toList else "--".toList
  pref ++ strReplace ['_'] ['-'] (pyOrStr title fieldName)

/-- The flag name as the specification words it: take the title override if
present, otherwise the declared name; replace every underscore with a hyphen;
put `--` (or `--no-` for the inverted form) in front. -/
def argumentNameSpec (title : Option (List Char)) (fieldName : List Char)
    (invert : Bool) : List Char :=
  let base := match title with
    | some t => t
    | none => fieldName
  (if invert then "--no-".toList else "--".toList) ++
    base.map (fun c => if c = '_' then '-' else c)

/-! ## Error path: `src/pydantic_argparse/argparse/parser.py`,
`parse_typed_args` and `error`

The observable effects are tracked explicitly: the strings written to
`sys.stderr` in order, and the terminal outcome (a `SystemExit` with a status
code, or an `argparse.ArgumentError` handed back to the caller).  The
`utils.errors.format` collaborator is abstracted: the validation outcome is
an `Except` already carrying the single formatted message. -/

/-- `ArgumentParser.EXIT_ERROR`. -/
def EXIT_ERROR : Nat := 2

/-- Terminal outcome of `ArgumentParser.error`. -/
inductive ErrOutcome where
  | exited : Nat → ErrOutcome
  | raised : String → ErrOutcome
deriving Repr, DecidableEq

/-- Result of routing a message through `ArgumentParser.error`: the writes to
`sys.stderr` in order, and the terminal outcome. -/
structure CliError where
  stderrOut : List String
  outcome : ErrOutcome
deriving Repr, DecidableEq

/-- Embedding of `ArgumentParser.error`:

```python
self.print_usage(sys.stderr)
if self.exit_on_error:
    self.exit(ArgumentParser.EXIT_ERROR, f"{self.prog}: error: {message}\n")
raise argparse.ArgumentError(None, f"{self.prog}: error: {message}")
```

(`argparse.ArgumentParser.exit(status, message)` writes the message to
`sys.stderr` and raises `SystemExit(status)`.) -/
def errorMethod (exit_on_error : Bool) (prog usage message : String) :
    CliError :=
  if exit_on_error then
    { stderrOut := [usage, prog ++ ": error: " ++ message ++ "\n"],
      outcome := ErrOutcome.exited EXIT_ERROR }
  else
    { stderrOut := [usage],
      outcome := ErrOutcome.raised (prog ++ ": error: " ++ message) }

/-- Result of one `parse_typed_args` invocation after raw token parsing
succeeded: either the validated model instance, or the routed CLI error. -/
inductive PTAResult (α : Type) where
  | ok : α → PTAResult α
  | errRoute : CliError → PTAResult α
deriving Repr, DecidableEq

/-- Embedding of the validation stage of `ArgumentParser.parse_typed_args`:
`validate` is the outcome of the `model_validate` call, with a raised
`ValidationError` already flattened by `utils.errors.format` into its single
message string (`Except.error msg`).

```python
try:
    ...
    return self.model.model_validate(...)
except ValidationError as exc:
    self.error(utils.errors.format(exc))
```
-/
def parseTypedArgs {α : Type} (exit_on_error : Bool) (prog usage : String)
    (validate : Except String α) : PTAResult α :=
  match validate with
  | Except.ok m => PTAResult.ok m
  | Except.error msg =>
      PTAResult.errRoute (errorMethod exit_on_error prog usage msg)

/-! ## Subcommand dispatcher: `src/pydantic_argparse/argparse/parser.py`,
`_commands`

The parser state keeps the `_subcommands` slot, the ordered `_action_groups`
list (titles, in help order), and a counter for fresh object identities.  A
subparsers action is embedded as its identity paired with its `required`
flag. -/

/-- `ArgumentParser.COMMANDS`. -/
def COMMANDS : String := "commands"

/-- The part of the `ArgumentParser` state that `_commands` reads and
mutates: `_subcommands` (a subparsers action given as object identity ×
`required` flag, `None` initially) and `_action_groups` (group titles in
help-output order); `nextId` supplies fresh object identities. -/
structure ParserGroupsState where
  nextId : Nat
  subcommands : Option (Nat × Bool)
  actionGroups : List String
deriving Repr, DecidableEq

/-- Embedding of `ArgumentParser._commands`:

```python
if not self._subcommands:
    self._subcommands = self.add_subparsers(
        title=ArgumentParser.COMMANDS, action=..., required=True)
    self._action_groups.insert(0, self._action_groups.pop())
return self._subcommands
```

(`add_subparsers(title=...)` creates the action with the given `required`
flag and appends a new argument group titled `"commands"` to
`_action_groups`.) -/
def commandsMethod (st : ParserGroupsState) :
    (Nat × Bool) × ParserGroupsState :=
  match st.subcommands with
  | some sp => (sp, st)
  | none =>
      let sp : Nat × Bool := (st.nextId, true)
      let appended := st.actionGroups ++ [COMMANDS]
      let reordered :=
        match appended.getLast? with
        | some g => g :: appended.dropLast
        | none => appended
      (sp, { nextId := st.nextId + 1,
             subcommands := some sp,
             actionGroups := reordered })

/-! ## Subcommand flag: `src/pydantic_argparse/utils/pydantic.py`,
`is_subcommand`

`model_config["json_schema_extra"]` either is absent (an exception), is not a
mapping (so `.get` raises `AttributeError`), or is a mapping possibly holding
a `subcommand` key.  The `subcommand` entry is the opt-in boolean. -/

/-- The `json_schema_extra` entry of a model config: a dict of extras, or
some non-dict object (on which `.get` raises `AttributeError`). -/
inductive ExtraCfg where
  | dictCfg : List (String × Bool) → ExtraCfg
  | nonDict : ExtraCfg
deriving Repr, DecidableEq

/-- The exceptions `is_subcommand` catches. -/
inductive CfgExn where
  | keyError : CfgExn
  | attrError : CfgExn
deriving Repr, DecidableEq

/-- The `try` body of `is_subcommand`:
`model.model_config["json_schema_extra"].get("subcommand", default)` —
the subscript raises when `json_schema_extra` is absent from the config, and
`.get` raises `AttributeError` on a non-dict value. -/
def isSubcommandBody (json_schema_extra : Option ExtraCfg) :
    Except CfgExn Bool :=
  match json_schema_extra with
  | none => Except.error CfgExn.keyError
  | some ExtraCfg.nonDict => Except.error CfgExn.attrError
  | some (ExtraCfg.dictCfg extra) =>
      Except.ok (((extra.find? (fun kv => kv.1 = "subcommand")).map
        (fun kv => kv.2)).getD false)

/-- Embedding of `is_subcommand`: run the body, and on `KeyError` or
`AttributeError` return the default `False`. -/
def is_subcommand (json_schema_extra : Option ExtraCfg) : Bool :=
  match isSubcommandBody json_schema_extra with
  | Except.ok b => b
  | Except.error _ => false

/-! ## Model augmentation: `src/pydantic_argparse/utils/pydantic.py`,
`model_with_validators`, and `parser.py`, `_add_model` / `parse_typed_args`

Python classes are embedded as named nodes of a single-inheritance chain
rooted at `object`; `pydantic.create_model(name, __base__=base, ...)` builds
a fresh class with that name and base. -/

/-- A Python class: `object`, or a named class with its single base. -/
inductive PyClass where
  | objectCls : PyClass
  | cls : String → PyClass → PyClass
deriving Repr, DecidableEq

/-- `model.__name__`. -/
def PyClass.clsName : PyClass → String
  | PyClass.objectCls => "object"
  | PyClass.cls n _ => n

/-- Python `issubclass(c, t)` along the single-inheritance chain. -/
def PyClass.isSubclassOf : PyClass → PyClass → Bool
  | PyClass.objectCls, t => decide (PyClass.objectCls = t)
  | PyClass.cls n b, t => decide (PyClass.cls n b = t) || b.isSubclassOf t

/-- `pydantic.create_model(name, __base__=base, __validators__=...)`: a fresh
class with the given name and base (the validators do not affect the class
identity, name or bases). -/
def create_model (nm : String) (base : PyClass) : PyClass :=
  PyClass.cls nm base

/-- Embedding of `model_with_validators`:
`pydantic.create_model(model.__name__, __base__=model, __validators__=...)`. -/
def model_with_validators (model : PyClass) (validators : List String) :
    PyClass :=
  let _ := validators
  create_model model.clsName model

/-- An instance produced by `model_validate`, recorded with the class it was
validated against (`self.model`). -/
structure PyInstance where
  instCls : PyClass
deriving Repr, DecidableEq

/-- Python `isinstance(inst, t)` (no multiple inheritance in this model). -/
def pyIsinstance (inst : PyInstance) (t : PyClass) : Bool :=
  inst.instCls.isSubclassOf t

/-! ## Concrete sample data

Small closed instances used to evaluate the embedded functions on concrete
inputs. -/

/-- A concrete caster: parses the string `"1"`, raises on everything else. -/
def sampleCaster : String → Except String PyValue :=
  fun t => if t = "1" then Except.ok (PyValue.pint 1) else Except.error "bad"

/-- A concrete `TypeWorld`: objects are naturals, those below 10 count as
types, `==` is numeric equality, and the instance/subclass oracles are total
constant functions. -/
@[reducible] def sampleWorld : TypeWorld where
  Obj := Nat
  isType := fun n => decide (n < 10)
  pyEq := fun a b => decide (a = b)
  isinst := fun _ _ => some false
  issub := fun _ _ => some false
  isinst_total := fun _ _ _ _ => rfl
  issub_total := fun _ _ _ _ => rfl

/-- A model with two subcommand variants `alpha {x}` and `beta {y}`. -/
def sampleSubModel : List FieldSpec :=
  [FieldSpec.nested "alpha" true [FieldSpec.scalar "x"],
   FieldSpec.nested "beta" true [FieldSpec.scalar "y"]]

/-- A flat argument mapping whose first key selects `alpha`, while a stray
top-level `y` would (via the `args.get(key)` default) give `beta` a non-empty
subtree. -/
def sampleSubArgs : List (String × PyValue) :=
  [("alpha", PyValue.pdict [("x", PyValue.pint 1)]), ("y", PyValue.pint 5)]

/-- A rebuilt schema with a `None` leaf, a real leaf and a sub-model all of
whose leaves are `None`. -/
def samplePruneSchema : List (String × PyValue) :=
  [("a", PyValue.pnone), ("b", PyValue.pstr "x"),
   ("grp", PyValue.pdict [("c", PyValue.pnone)])]

/-- A flat argument mapping with one nested group and one stray top-level
scalar, for the path-lookup examples. -/
def sampleLookupArgs : List (String × PyValue) :=
  [("grp", PyValue.pdict [("x", PyValue.pint 1)]), ("y", PyValue.pint 7)]

/-! ## The pruning invariant, stated as a decidable predicate

`prunedVal v` holds when, at every depth inside `v`, each dict entry and each
list element is a value the `_remove_null_leaves` visit callback would keep
(not `None`, not an empty container) and is itself recursively pruned.  This
is the specification's invariant "no key maps to `None`, and no key maps to an
empty container". -/

mutual

/-- Every item at any depth below this value passes `shouldKeep` and is
recursively pruned. -/
def prunedVal : PyValue → Bool
  | PyValue.pdict m => prunedEntries m
  | PyValue.plist l => prunedList l
  | _ => true

/-- `prunedVal`, over a dict's entries. -/
def prunedEntries : List (String × PyValue) → Bool
  | [] => true
  | (_, v) :: rest => shouldKeep v && prunedVal v && prunedEntries rest

/-- `prunedVal`, over a list's elements. -/
def prunedList : List PyValue → Bool
  | [] => true
  | v :: rest => shouldKeep v && prunedVal v && prunedList rest

end

/-! # Theorems -/

/-! ## C1: behaviour of the validator built by `as_validator` -/

/-- C1: for every field and caster, the validator constructed by
`as_validator` returns non-string inputs unchanged, maps the empty string to
`None`, applies the caster to any other string, and on a caster exception
returns the original raw string unchanged (never raising). -/
theorem claim_C1_as_validator_behaviour
    (caster : String → Except String PyValue) (value : PyValue) (s : String) :
    (value.isStr = false → asValidatorBody caster value = value) ∧
    asValidatorBody caster (PyValue.pstr "") = PyValue.pnone ∧
    (s ≠ "" → ∀ v, caster s = Except.ok v →
      asValidatorBody caster (PyValue.pstr s) = v) ∧
    (s ≠ "" → ∀ e, caster s = Except.error e →
      asValidatorBody caster (PyValue.pstr s) = PyValue.pstr s) := by
  refine ⟨?_, rfl, ?_, ?_⟩
  · intro h
    cases value <;> simp_all [asValidatorBody, PyValue.isStr]
  · intro hs v hc
    simp [asValidatorBody, PyValue.isStr, hs, hc]
  · intro hs e hc
    simp [asValidatorBody, PyValue.isStr, hs, hc]

/-- C1 witness: the validator at a concrete caster and concrete inputs. -/
theorem claim_C1_witness :
    asValidatorBody sampleCaster (PyValue.pint 5) = PyValue.pint 5 ∧
    asValidatorBody sampleCaster (PyValue.pstr "") = PyValue.pnone ∧
    asValidatorBody sampleCaster (PyValue.pstr "1") = PyValue.pint 1 ∧
    asValidatorBody sampleCaster (PyValue.pstr "x") = PyValue.pstr "x" := by
  have h1 := claim_C1_as_validator_behaviour sampleCaster (PyValue.pint 5) "1"
  have h2 := claim_C1_as_validator_behaviour sampleCaster (PyValue.pint 5) "x"
  refine ⟨h1.1 rfl, h1.2.1, ?_, ?_⟩
  · exact h1.2.2.1 (by decide) (PyValue.pint 1) (by simp [sampleCaster])
  · exact h2.2.2.2 (by decide) "bad" (by simp [sampleCaster])

/-! ## C5: `is_field_a` checks identity, instance-of, subclass-of, safely -/

/-- C5: `is_field_a` never raises (its result is always defined); membership
by identity short-circuits to true; when the field type or any candidate is
not itself a type, the instance-of and subclass-of checks are skipped and the
result is exactly the identity-membership check; when all are types, the
result is the disjunction identity-or-instance-or-subclass in that order. -/
theorem claim_C5_is_field_a (W : TypeWorld) (ft : W.Obj) (ts : List W.Obj) :
    (W.is_field_a ft ts).isSome = true ∧
    (W.pyMem ft ts = true → W.is_field_a ft ts = some true) ∧
    ((ts ++ [ft]).all W.isType = false →
      W.is_field_a ft ts = some (W.pyMem ft ts)) ∧
    (∀ b1 b2, W.pyMem ft ts = false → (ts ++ [ft]).all W.isType = true →
      W.isinst ft ts = some b1 → W.issub ft ts = some b2 →
      W.is_field_a ft ts = some (b1 || b2)) := by
  refine ⟨?_, ?_, ?_, ?_⟩
  · by_cases hmem : W.pyMem ft ts = true
    · simp [TypeWorld.is_field_a, hmem]
    · by_cases hvalid : (ts ++ [ft]).all W.isType = true
      · have hboth : (∀ x ∈ ts, W.isType x = true) ∧ W.isType ft = true := by
          simpa using hvalid
        have hft : W.isType ft = true := hboth.2
        have hts : ∀ t ∈ ts, W.isType t = true := hboth.1
        have hinst := W.isinst_total ft ts hft hts
        obtain ⟨b1, hb1⟩ := Option.isSome_iff_exists.mp hinst
        cases b1 with
        | true => simp [TypeWorld.is_field_a, hmem, hvalid, hb1]
        | false =>
            have hsub := W.issub_total ft ts hft hts
            obtain ⟨b2, hb2⟩ := Option.isSome_iff_exists.mp hsub
            simp [TypeWorld.is_field_a, hmem, hvalid, hb1, hb2]
      · simp [TypeWorld.is_field_a, hmem, hvalid]
  · intro hmem
    simp [TypeWorld.is_field_a, hmem]
  · intro hvalid
    by_cases hmem : W.pyMem ft ts = true
    · simp [TypeWorld.is_field_a, hmem]
    · simp [TypeWorld.is_field_a, hmem, hvalid]
  · intro b1 b2 hmem hvalid hb1 hb2
    cases b1 with
    | true => simp [TypeWorld.is_field_a, hmem, hvalid, hb1]
    | false => simp [TypeWorld.is_field_a, hmem, hvalid, hb1, hb2]

/-- C5 witness: the checks of `is_field_a` evaluated in a concrete world. -/
theorem claim_C5_witness :
    TypeWorld.is_field_a sampleWorld 3 [3] = some true ∧
    TypeWorld.is_field_a sampleWorld 20 [30] = some false ∧
    TypeWorld.is_field_a sampleWorld 3 [4] = some false := by
  have h1 := claim_C5_is_field_a sampleWorld 3 [3]
  have h2 := claim_C5_is_field_a sampleWorld 20 [30]
  have h3 := claim_C5_is_field_a sampleWorld 3 [4]
  refine ⟨h1.2.1 (by decide), ?_, ?_⟩
  · have h := h2.2.2.1 (by decide)
    rw [h]
    decide
  · have h := h3.2.2.2 false false (by decide) (by decide) rfl rfl
    simpa using h

/-! ## C7: externally registered flag names -/

/-- `str.replace` with a one-character pattern and one-character replacement
is the per-character substitution. -/
theorem strReplace_singleton (p r : Char) (s : List Char) :
    strReplace [p] [r] s = s.map (fun c => if c = p then r else c) := by
  induction s with
  | nil => simp [strReplace]
  | cons c rest ih =>
      rw [strReplace]
      by_cases hc : c = p
      · subst hc
        simp [List.isPrefixOf, ih]
      · have hpre : ([p].isPrefixOf (c :: rest)) = false := by
          simp [List.isPrefixOf]
          exact fun h => absurd h.symm hc
        simp [hpre, hc, ih]

/-- C7: the registered flag name is the field's title override if present
(otherwise its declared name) with every underscore replaced by a hyphen,
behind the `--` marker, or behind `--no-` for the inverted form. -/
theorem claim_C7_argument_name
    (title : Option (List Char)) (fieldName : List Char) (invert : Bool)
    (h : title = none ∨ ∃ t, title = some t ∧ t ≠ []) :
    argumentName title fieldName invert =
      argumentNameSpec title fieldName invert := by
  rcases h with h | ⟨t, ht, hne⟩
  · subst h
    simp [argumentName, argumentNameSpec, pyOrStr, strReplace_singleton]
  · subst ht
    simp [argumentName, argumentNameSpec, pyOrStr, hne, strReplace_singleton]

/-- C7 witness: a concrete field name with underscores, in both the plain and
inverted forms, with and without a title override. -/
theorem claim_C7_witness :
    argumentName none "my_flag".toList false =
      argumentNameSpec none "my_flag".toList false ∧
    argumentName none "my_flag".toList true =
      argumentNameSpec none "my_flag".toList true ∧
    argumentName (some "alt_name".toList) "my_flag".toList false =
      argumentNameSpec (some "alt_name".toList) "my_flag".toList false := by
  refine ⟨?_, ?_, ?_⟩
  · exact claim_C7_argument_name none "my_flag".toList false (Or.inl rfl)
  · exact claim_C7_argument_name none "my_flag".toList true (Or.inl rfl)
  · exact claim_C7_argument_name (some "alt_name".toList) "my_flag".toList
      false (Or.inr ⟨"alt_name".toList, rfl, by decide⟩)

/-! ## C3: the pruning pass leaves no null leaves and no empty containers -/

mutual

/-- After pruning, a value satisfies the pruning invariant at every depth. -/
theorem pruneValue_pruned : (v : PyValue) → prunedVal (pruneValue v) = true
  | PyValue.pnone => rfl
  | PyValue.pstr _ => rfl
  | PyValue.pbool _ => rfl
  | PyValue.pint _ => rfl
  | PyValue.pdict m => by
      simpa [pruneValue, prunedVal] using pruneEntries_pruned m
  | PyValue.plist l => by
      simpa [pruneValue, prunedVal] using pruneList_pruned l

/-- After pruning a dict's entries, the pruning invariant holds of them. -/
theorem pruneEntries_pruned :
    (m : List (String × PyValue)) → prunedEntries (pruneEntries m) = true
  | [] => rfl
  | (k, v) :: rest => by
      by_cases h : shouldKeep (pruneValue v) = true
      · have hv := pruneValue_pruned v
        have hr := pruneEntries_pruned rest
        simp [pruneEntries, h, prunedEntries, hv, hr]
      · have hr := pruneEntries_pruned rest
        simp [pruneEntries, h, hr]

/-- After pruning a list's elements, the pruning invariant holds of them. -/
theorem pruneList_pruned :
    (l : List PyValue) → prunedList (pruneList l) = true
  | [] => rfl
  | v :: rest => by
      by_cases h : shouldKeep (pruneValue v) = true
      · have hv := pruneValue_pruned v
        have hr := pruneList_pruned rest
        simp [pruneList, h, prunedList, hv, hr]
      · have hr := pruneList_pruned rest
        simp [pruneList, h, hr]

end

/-- C3: after `_remove_null_leaves`, no key at any depth maps to `None` and no
key maps to an empty container, and the emptiness check cascades upward: an
entry whose sub-model prunes to an empty mapping is itself dropped. -/
theorem claim_C3_prune_invariant (schema : List (String × PyValue)) :
    prunedEntries (removeNullLeaves schema) = true ∧
    (∀ k m0 rest, pruneEntries m0 = [] →
      removeNullLeaves ((k, PyValue.pdict m0) :: rest) = removeNullLeaves rest) := by
  constructor
  · exact pruneEntries_pruned schema
  · intro k m0 rest h0
    simp [removeNullLeaves, pruneEntries, pruneValue, h0, shouldKeep,
      PyValue.isNone, PyValue.isContainer, PyValue.pyLen]

/-- C3 witness: pruning a schema with a `None` leaf and an all-`None`
sub-model. -/
theorem claim_C3_witness :
    prunedEntries (removeNullLeaves samplePruneSchema) = true ∧
    removeNullLeaves [("grp", PyValue.pdict [("c", PyValue.pnone)])] =
      removeNullLeaves [] := by
  have h := claim_C3_prune_invariant samplePruneSchema
  refine ⟨h.1, ?_⟩
  exact (claim_C3_prune_invariant []).2 "grp" [("c", PyValue.pnone)] []
    (by simp [pruneEntries, pruneValue, shouldKeep, PyValue.isNone])

/-! ## C2: subcommand selection filters the rebuilt top level -/

/-- C2: when the rebuilt tree contains a subcommand field, the selected name
is the first key of the flat argument mapping, and the rebuilt top-level
mapping retains exactly the entries keyed by that name — every other key,
sibling variants with non-empty subtrees included, is discarded. -/
theorem claim_C2_subcommand_selection (model : List FieldSpec) (A : String)
    (v : PyValue) (rest : List (String × PyValue))
    (hsub : (getNestedModelFields ((A, v) :: rest) model []).2 = true) :
    ∃ s, nestedParserInit model ((A, v) :: rest) = some s ∧
      (∀ kv ∈ s, kv.1 = A) ∧
      (∀ kv ∈ removeNullLeaves
          (getNestedModelFields ((A, v) :: rest) model []).1,
        kv.1 = A → kv ∈ s) ∧
      (∀ B, B ≠ A → dget s B = none) := by
  refine ⟨unsetSubcommands (removeNullLeaves
    (getNestedModelFields ((A, v) :: rest) model []).1) A, ?_, ?_, ?_, ?_⟩
  · simp [nestedParserInit, hsub]
  · intro kv hkv
    have := List.mem_filter.mp hkv
    simpa using this.2
  · intro kv hkv hA
    exact List.mem_filter.mpr ⟨hkv, by simpa using hA⟩
  · intro B hB
    have hnone : (unsetSubcommands (removeNullLeaves
        (getNestedModelFields ((A, v) :: rest) model []).1) A).find?
        (fun kv => kv.1 = B) = none := by
      rw [List.find?_eq_none]
      intro kv hkv
      have hA : kv.1 = A := by
        have := List.mem_filter.mp hkv
        simpa using this.2
      simp [hA]
      exact fun h => absurd h.symm hB
    simp [dget, hnone]

/-- C2 witness: variants `alpha` and `beta` where `beta` gets a non-empty
subtree from a stray top-level value, with `alpha` selected by the first
token. -/
theorem claim_C2_witness :
    ∃ s, nestedParserInit sampleSubModel sampleSubArgs = some s ∧
      (∀ kv ∈ s, kv.1 = "alpha") ∧
      dget s "beta" = none := by
  obtain ⟨s, hs, hall, -, hnone⟩ :=
    claim_C2_subcommand_selection sampleSubModel "alpha"
      (PyValue.pdict [("x", PyValue.pint 1)]) [("y", PyValue.pint 5)]
      (by simp [getNestedModelFields, sampleSubModel])
  exact ⟨s, hs, hall, hnone "beta" (by decide)⟩

/-! ## C6: full-path lookup first, two-element fallback second -/

/-- `is None` holds exactly of the embedded `None`. -/
theorem PyValue.isNone_eq_true_iff (v : PyValue) :
    v.isNone = true ↔ v = PyValue.pnone := by
  cases v <;> simp [PyValue.isNone]

/-- C6: a top-level scalar is looked up directly by its own name; a nested
scalar is looked up at its full path first — a non-`None` hit there is the
result and the fallback is not consulted — and the shortened two-element
fallback path is consulted only when the full-path stage produced `None`;
moreover a missing full path with a non-`None` top-level binding resolves to
that binding, still without consulting the fallback path. -/
theorem claim_C6_scalar_lookup (args : List (String × PyValue))
    (parent : List String) (key : String) :
    scalarLookup args [] key = (dget args key).getD PyValue.pnone ∧
    (∀ p0 prest w, parent = p0 :: prest →
      getPath (PyValue.pdict args) (parent ++ [key]) = some w →
      w.isNone = false →
      scalarLookup args parent key = w) ∧
    (∀ p0 prest, parent = p0 :: prest →
      ((getPath (PyValue.pdict args) (parent ++ [key])).getD
        ((dget args key).getD PyValue.pnone)).isNone = true →
      scalarLookup args parent key =
        (getPath (PyValue.pdict args) [p0, key]).getD PyValue.pnone) ∧
    (∀ p0 prest w, parent = p0 :: prest →
      getPath (PyValue.pdict args) (parent ++ [key]) = none →
      dget args key = some w → w.isNone = false →
      scalarLookup args parent key = w) := by
  refine ⟨rfl, ?_, ?_, ?_⟩
  · intro p0 prest w hp hfull hw
    subst hp
    rw [List.cons_append] at hfull
    simp [scalarLookup, hfull, hw]
  · intro p0 prest hp hnone
    subst hp
    have hval : (getPath (PyValue.pdict args) ((p0 :: prest) ++ [key])).getD
        ((dget args key).getD PyValue.pnone) = PyValue.pnone :=
      (PyValue.isNone_eq_true_iff _).mp hnone
    rw [List.cons_append] at hval
    simp [scalarLookup, hval, PyValue.isNone]
  · intro p0 prest w hp hfull hget hw
    subst hp
    rw [List.cons_append] at hfull
    simp [scalarLookup, hfull, hget, hw]

/-- C6 witness: the four lookup behaviours on a concrete argument mapping. -/
theorem claim_C6_witness :
    scalarLookup sampleLookupArgs [] "y" = PyValue.pint 7 ∧
    scalarLookup sampleLookupArgs ["grp"] "x" = PyValue.pint 1 ∧
    scalarLookup sampleLookupArgs ["grp"] "z" = PyValue.pnone ∧
    scalarLookup sampleLookupArgs ["grp"] "y" = PyValue.pint 7 := by
  have h0 := claim_C6_scalar_lookup sampleLookupArgs [] "y"
  have hx := claim_C6_scalar_lookup sampleLookupArgs ["grp"] "x"
  have hz := claim_C6_scalar_lookup sampleLookupArgs ["grp"] "z"
  have hy := claim_C6_scalar_lookup sampleLookupArgs ["grp"] "y"
  refine ⟨?_, ?_, ?_, ?_⟩
  · rw [h0.1]
    simp [dget, sampleLookupArgs]
  · exact hx.2.1 "grp" [] (PyValue.pint 1) rfl
      (by simp [getPath, dget, sampleLookupArgs]) rfl
  · have h := hz.2.2.1 "grp" [] rfl
      (by simp [getPath, dget, sampleLookupArgs, PyValue.isNone])
    rw [h]
    simp [getPath, dget, sampleLookupArgs]
  · exact hy.2.2.2 "grp" [] (PyValue.pint 7) rfl
      (by simp [getPath, dget, sampleLookupArgs])
      (by simp [dget, sampleLookupArgs]) rfl

/-! ## C4: validation failures are routed through the CLI error path -/

/-- C4: when model validation fails, `parse_typed_args` never returns a
result: it routes the formatted message through `error`, which writes the
usage text to `stderr` first and then either exits with the fixed code 2
(exit-on-error enabled) or raises an argument error back to the caller. -/
theorem claim_C4_validation_error_routing {α : Type} (exit_on_error : Bool)
    (prog usage msg : String) (validate : Except String α)
    (h : validate = Except.error msg) :
    (∀ a, parseTypedArgs exit_on_error prog usage validate ≠ PTAResult.ok a) ∧
    parseTypedArgs exit_on_error prog usage validate =
      PTAResult.errRoute (errorMethod exit_on_error prog usage msg) ∧
    (errorMethod exit_on_error prog usage msg).stderrOut.head? = some usage ∧
    (exit_on_error = true →
      (errorMethod exit_on_error prog usage msg).outcome =
        ErrOutcome.exited 2) ∧
    (exit_on_error = false →
      (errorMethod exit_on_error prog usage msg).outcome =
        ErrOutcome.raised (prog ++ ": error: " ++ msg)) := by
  subst h
  refine ⟨?_, rfl, ?_, ?_, ?_⟩
  · intro a hcontra
    simp [parseTypedArgs] at hcontra
  · cases exit_on_error <;> simp [errorMethod]
  · intro he
    subst he
    simp [errorMethod, EXIT_ERROR]
  · intro he
    subst he
    simp [errorMethod]

/-- C4 witness: a failing validation routed with exit-on-error enabled and
disabled. -/
theorem claim_C4_witness :
    parseTypedArgs true "prog" "usage: prog"
        (Except.error "invalid" : Except String Nat) =
      PTAResult.errRoute
        ⟨["usage: prog", "prog: error: invalid\n"], ErrOutcome.exited 2⟩ ∧
    parseTypedArgs false "prog" "usage: prog"
        (Except.error "invalid" : Except String Nat) =
      PTAResult.errRoute
        ⟨["usage: prog"], ErrOutcome.raised "prog: error: invalid"⟩ := by
  have h1 := claim_C4_validation_error_routing (α := Nat) true "prog"
    "usage: prog" "invalid" (Except.error "invalid") rfl
  have h2 := claim_C4_validation_error_routing (α := Nat) false "prog"
    "usage: prog" "invalid" (Except.error "invalid") rfl
  refine ⟨?_, ?_⟩
  · rw [h1.2.1]
    rfl
  · rw [h2.2.1]
    rfl

/-! ## C8: the subcommand dispatcher is lazily created once, required, and
surfaced first -/

/-- C8: across all subcommand fields of one parser, `_commands` creates the
dispatcher at most once — a second request returns the same action and leaves
the state unchanged — the created action is marked required, and upon
creation its group is moved to the front of the help-output group order. -/
theorem claim_C8_commands_dispatcher (st : ParserGroupsState) :
    commandsMethod (commandsMethod st).2 =
      ((commandsMethod st).1, (commandsMethod st).2) ∧
    (∀ sp, st.subcommands = some sp → commandsMethod st = (sp, st)) ∧
    (st.subcommands = none →
      (commandsMethod st).1.2 = true ∧
      (commandsMethod st).2.subcommands = some (commandsMethod st).1 ∧
      (commandsMethod st).2.actionGroups.head? = some COMMANDS) := by
  refine ⟨?_, ?_, ?_⟩
  · cases h : st.subcommands with
    | some sp => simp [commandsMethod, h]
    | none => simp [commandsMethod, h]
  · intro sp h
    simp [commandsMethod, h]
  · intro h
    have hlast : (st.actionGroups ++ [COMMANDS]).getLast? = some COMMANDS := by
      simp
    refine ⟨?_, ?_, ?_⟩
    · simp [commandsMethod, h]
    · simp [commandsMethod, h]
    · simp [commandsMethod, h, hlast]

/-- C8 witness: a fresh parser state with one pre-existing group. -/
theorem claim_C8_witness :
    commandsMethod (commandsMethod ⟨0, none, ["help"]⟩).2 =
      ((commandsMethod ⟨0, none, ["help"]⟩).1,
        (commandsMethod ⟨0, none, ["help"]⟩).2) ∧
    (commandsMethod (⟨0, none, ["help"]⟩ : ParserGroupsState)).1.2 = true ∧
    (commandsMethod (⟨0, none, ["help"]⟩ :
      ParserGroupsState)).2.actionGroups.head? = some COMMANDS := by
  have h := claim_C8_commands_dispatcher ⟨0, none, ["help"]⟩
  have h3 := h.2.2 rfl
  exact ⟨h.1, h3.1, h3.2.2⟩

/-! ## C9: `is_subcommand` is total and defaults to `False` -/

/-- C9: `is_subcommand` always returns a boolean and never propagates an
exception: a missing `json_schema_extra`, a non-mapping `json_schema_extra`,
or a mapping without the `subcommand` key all yield the default `False`,
while a present `subcommand` entry yields the configured value. -/
theorem claim_C9_is_subcommand_total (extra : List (String × Bool)) :
    is_subcommand none = false ∧
    is_subcommand (some ExtraCfg.nonDict) = false ∧
    (extra.find? (fun kv => kv.1 = "subcommand") = none →
      is_subcommand (some (ExtraCfg.dictCfg extra)) = false) ∧
    (∀ kv, extra.find? (fun kv2 => kv2.1 = "subcommand") = some kv →
      is_subcommand (some (ExtraCfg.dictCfg extra)) = kv.2) ∧
    (∀ cfg e, isSubcommandBody cfg = Except.error e →
      is_subcommand cfg = false) := by
  refine ⟨rfl, rfl, ?_, ?_, ?_⟩
  · intro h
    simp [is_subcommand, isSubcommandBody, h]
  · intro kv h
    simp [is_subcommand, isSubcommandBody, h]
  · intro cfg e h
    simp [is_subcommand, h]

/-- C9 witness: opted-in, opted-out and unconfigured models. -/
theorem claim_C9_witness :
    is_subcommand none = false ∧
    is_subcommand (some (ExtraCfg.dictCfg [("subcommand", true)])) = true ∧
    is_subcommand (some (ExtraCfg.dictCfg [("other", true)])) = false ∧
    is_subcommand (some ExtraCfg.nonDict) = false := by
  have h1 := claim_C9_is_subcommand_total [("subcommand", true)]
  have h2 := claim_C9_is_subcommand_total [("other", true)]
  refine ⟨h1.1, ?_, ?_, h1.2.1⟩
  · exact h1.2.2.2.1 ("subcommand", true) (by simp)
  · exact h2.2.2.1 (by simp)

/-! ## C10: the augmented model is a same-named subclass of the user model -/

/-- `issubclass` is reflexive. -/
theorem PyClass.isSubclassOf_refl (c : PyClass) : c.isSubclassOf c = true := by
  cases c <;> simp [PyClass.isSubclassOf]

/-- C10: `model_with_validators` produces a class with the same name as the
supplied model that is a subclass of it, so every instance validated against
the augmented class is an instance of the original model class. -/
theorem claim_C10_model_with_validators (m : PyClass)
    (validators : List String) :
    (model_with_validators m validators).clsName = m.clsName ∧
    (model_with_validators m validators).isSubclassOf m = true ∧
    (∀ inst : PyInstance, inst.instCls = model_with_validators m validators →
      pyIsinstance inst m = true) := by
  have hsub : (model_with_validators m validators).isSubclassOf m = true := by
    show (PyClass.cls m.clsName m).isSubclassOf m = true
    simp [PyClass.isSubclassOf, PyClass.isSubclassOf_refl]
  refine ⟨rfl, hsub, ?_⟩
  intro inst h
  simp [pyIsinstance, h, hsub]

/-- C10 witness: a concrete model class and a validated instance. -/
theorem claim_C10_witness :
    (model_with_validators (PyClass.cls "Args" PyClass.objectCls)
      ["v"]).clsName = "Args" ∧
    (model_with_validators (PyClass.cls "Args" PyClass.objectCls)
      ["v"]).isSubclassOf (PyClass.cls "Args" PyClass.objectCls) = true ∧
    pyIsinstance
      ⟨model_with_validators (PyClass.cls "Args" PyClass.objectCls) ["v"]⟩
      (PyClass.cls "Args" PyClass.objectCls) = true := by
  have h := claim_C10_model_with_validators
    (PyClass.cls "Args" PyClass.objectCls) ["v"]
  exact ⟨h.1, h.2.1, h.2.2 _ rfl⟩
